import Mathlib

/-!
# Verification of the ORAS credentials store (oras-project/oras-credentials-go)

A shallow embedding of the credential-store logic of the repository:

* the auth codec (`encodeAuth` / `decodeAuth`, a faithful model of Go's
  `encoding/base64` StdEncoding specialised to this use),
* the file-backed credential store (`FileStore` of the docker-config flavour:
  `Get` / `Put` / `Delete` / `saveFile`),
* the config document with its unknown-field preservation discipline,
* the dynamic store resolver (`getHelperSuffix` / `getStore`) and its one-time
  "persist detected credentials store" side effect,
* the fallback-chain store (`storeWithFallbacks`),
* the native (credential-helper-backed) store translation layer.

Go strings are modelled as byte lists (`GoStr`); maps as association lists
with replace-on-insert semantics; Go's `(T, error)` returns as `T × Option GoErr`.
The JSON marshal/unmarshal layer for the flat `authConfig` struct is modelled
as the identity bridge (storing the struct value itself), which is exactly the
observable behaviour of `json.Marshal`/`json.Unmarshal` on that struct.
-/

namespace OrasCreds

/-- Go strings are byte sequences; we model them as lists of naturals,
well-formed when every entry is `< 256`. -/
abbrev GoStr := List Nat

/-- Well-formedness of a modelled Go string: every byte is `< 256`. -/
def ValidStr (s : GoStr) : Prop := ∀ b ∈ s, b < 256

instance (s : GoStr) : Decidable (ValidStr s) := by
  unfold ValidStr; infer_instance

/-- `auth.Credential` from oras-go (`registry/remote/auth`): username, password,
refresh token (identity token) and access token (registry token). -/
structure Credential where
  username : GoStr
  password : GoStr
  refreshToken : GoStr
  accessToken : GoStr
deriving DecidableEq, Repr

/-- `auth.EmptyCredential`: the all-fields-unset sentinel. -/
def EmptyCredential : Credential := ⟨[], [], [], []⟩

/-! ## Base64 (Go `encoding/base64` StdEncoding)

`encodeAuth`/`decodeAuth` of the file store go through Go's standard base64
codec.  We model the standard alphabet with `=` padding. -/

/-- Standard base64 alphabet: sextet value to byte of `A-Za-z0-9+/`. -/
def sextetToChar (n : Nat) : Nat :=
  if n < 26 then 65 + n
  else if n < 52 then 97 + (n - 26)
  else if n < 62 then 48 + (n - 52)
  else if n = 62 then 43
  else 47

/-- Inverse of the standard base64 alphabet; `none` on a byte outside it. -/
def charToSextet (c : Nat) : Option Nat :=
  if 65 ≤ c ∧ c ≤ 90 then some (c - 65)
  else if 97 ≤ c ∧ c ≤ 122 then some (c - 97 + 26)
  else if 48 ≤ c ∧ c ≤ 57 then some (c - 48 + 52)
  else if c = 43 then some 62
  else if c = 47 then some 63
  else none

/-- The padding byte `'='`. -/
def padByte : Nat := 61

/-- Base64-encode a byte list (Go `base64.StdEncoding.EncodeToString`),
three input bytes per four output characters, `=`-padded. -/
def b64encode : GoStr → GoStr
  | [] => []
  | [a] =>
      [sextetToChar (a / 4), sextetToChar (a % 4 * 16), padByte, padByte]
  | [a, b] =>
      [sextetToChar (a / 4), sextetToChar (a % 4 * 16 + b / 16),
       sextetToChar (b % 16 * 4), padByte]
  | a :: b :: c :: rest =>
      sextetToChar (a / 4) :: sextetToChar (a % 4 * 16 + b / 16) ::
      sextetToChar (b % 16 * 4 + c / 64) :: sextetToChar (c % 64) ::
      b64encode rest

/-- Decoding errors of the base64 codec (Go `CorruptInputError`). -/
inductive B64Err where
  | corruptInput
deriving DecidableEq, Repr

/-- Base64-decode a byte list (Go `base64.StdEncoding.DecodeString`):
four characters per three output bytes, `=`-padding allowed only in the
final quantum. -/
def b64decode : GoStr → Except B64Err GoStr
  | [] => .ok []
  | c1 :: c2 :: c3 :: c4 :: rest =>
      match charToSextet c1, charToSextet c2 with
      | some s1, some s2 =>
          if c3 = padByte then
            if c4 = padByte ∧ rest = [] then
              .ok [s1 * 4 + s2 / 16]
            else
              .error .corruptInput
          else
            match charToSextet c3 with
            | some s3 =>
                if c4 = padByte then
                  if rest = [] then
                    .ok [s1 * 4 + s2 / 16, s2 % 16 * 16 + s3 / 4]
                  else
                    .error .corruptInput
                else
                  match charToSextet c4 with
                  | some s4 =>
                      match b64decode rest with
                      | .ok bs =>
                          .ok ((s1 * 4 + s2 / 16) :: (s2 % 16 * 16 + s3 / 4) ::
                               (s3 % 4 * 64 + s4) :: bs)
                      | .error e => .error e
                  | none => .error .corruptInput
            | none => .error .corruptInput
      | _, _ => .error .corruptInput
  | _ => .error .corruptInput

theorem sextetToChar_lt (n : Nat) : sextetToChar n < 256 := by
  unfold sextetToChar
  split <;> try omega
  split <;> try omega
  split <;> try omega
  split <;> omega

theorem sextetToChar_ne_pad : ∀ n < 64, sextetToChar n ≠ padByte := by
  decide

theorem charToSextet_sextetToChar :
    ∀ n < 64, charToSextet (sextetToChar n) = some n := by
  decide

/-- Base64 round trip: decoding an encoded well-formed byte list recovers it. -/
theorem b64decode_b64encode (bs : GoStr) (h : ValidStr bs) :
    b64decode (b64encode bs) = .ok bs := by
  induction bs using b64encode.induct with
  | case1 =>
      simp [b64encode, b64decode]
  | case2 a =>
      have ha : a < 256 := h a (by simp)
      have h1 : a / 4 < 64 := by omega
      have h2 : a % 4 * 16 < 64 := by omega
      simp only [b64encode, b64decode,
        charToSextet_sextetToChar _ h1, charToSextet_sextetToChar _ h2]
      simp
      omega
  | case3 a b =>
      have ha : a < 256 := h a (by simp)
      have hb : b < 256 := h b (by simp)
      have h1 : a / 4 < 64 := by omega
      have h2 : a % 4 * 16 + b / 16 < 64 := by omega
      have h3 : b % 16 * 4 < 64 := by omega
      simp only [b64encode, b64decode,
        charToSextet_sextetToChar _ h1, charToSextet_sextetToChar _ h2,
        charToSextet_sextetToChar _ h3]
      simp [sextetToChar_ne_pad _ h3]
      constructor
      · omega
      · omega
  | case4 a b c rest ih =>
      have ha : a < 256 := h a (by simp)
      have hb : b < 256 := h b (by simp)
      have hc : c < 256 := h c (by simp)
      have hrest : ValidStr rest := by
        intro x hx; exact h x (by simp [hx])
      have h1 : a / 4 < 64 := by omega
      have h2 : a % 4 * 16 + b / 16 < 64 := by omega
      have h3 : b % 16 * 4 + c / 64 < 64 := by omega
      have h4 : c % 64 < 64 := by omega
      simp only [b64encode, b64decode,
        charToSextet_sextetToChar _ h1, charToSextet_sextetToChar _ h2,
        charToSextet_sextetToChar _ h3, charToSextet_sextetToChar _ h4]
      simp [sextetToChar_ne_pad _ h3, sextetToChar_ne_pad _ h4, ih hrest]
      refine ⟨by omega, by omega, by omega⟩

/-! ## The auth codec (`encodeAuth` / `decodeAuth`, unnamed/part_004 lines 225-249) -/

/-- The `':'` byte. -/
def colonByte : Nat := 58

/-- Errors of the modelled Go code. -/
inductive GoErr where
  /-- `ErrPlaintextPutDisabled`. -/
  | plaintextPutDisabled
  /-- `fmt.Errorf("...: %w: %v", ErrInvalidConfigFormat, err)`: an error that
  wraps `ErrInvalidConfigFormat`, carrying the underlying cause. -/
  | invalidConfigFormat (cause : String)
  /-- The error of `decodeAuth` when base64 decoding fails. -/
  | base64 (e : B64Err)
  /-- The error of `decodeAuth` when the decoded bytes contain no `':'`. -/
  | authFormat
  /-- An I/O error (file create / rename / helper execution), opaque. -/
  | ioErr (msg : String)
  /-- `fmt.Errorf("failed to set credsStore: %w", err)`. -/
  | setCredsStoreFailed
deriving DecidableEq, Repr

/-- Whether a `GoErr` wraps `ErrInvalidConfigFormat` (Go `errors.Is`). -/
def GoErr.wrapsInvalidConfigFormat : GoErr → Bool
  | .invalidConfigFormat _ => true
  | _ => false

/-- `encodeAuth(username, password)` (part_004 lines 226-231): empty when both
inputs are empty, otherwise `base64(username ++ ":" ++ password)`. -/
def encodeAuth (username password : GoStr) : GoStr :=
  if username = [] ∧ password = [] then []
  else b64encode (username ++ colonByte :: password)

/-- `strings.Cut(s, sep)` for a single-byte separator: splits at the first
occurrence, returning `(before, after, found)`. -/
def cutByte (sep : Nat) : GoStr → GoStr × GoStr × Bool
  | [] => ([], [], false)
  | b :: rest =>
      if b = sep then ([], rest, true)
      else
        let (pre, post, found) := cutByte sep rest
        (b :: pre, post, found)

/-- `decodeAuth(authStr)` (part_004 lines 234-249): empty input yields empty
outputs; otherwise base64-decode and split at the first `':'`; an input that
decodes but contains no `':'` is a format error. -/
def decodeAuth (authStr : GoStr) : Except GoErr (GoStr × GoStr) :=
  if authStr = [] then .ok ([], [])
  else
    match b64decode authStr with
    | .error e => .error (.base64 e)
    | .ok decoded =>
        match cutByte colonByte decoded with
        | (username, password, true) => .ok (username, password)
        | (_, _, false) => .error .authFormat

theorem b64encode_ne_nil (l : GoStr) (h : l ≠ []) : b64encode l ≠ [] := by
  match l with
  | [] => exact absurd rfl h
  | [a] => simp [b64encode]
  | [a, b] => simp [b64encode]
  | a :: b :: c :: rest => simp [b64encode]

theorem cutByte_append (u p : GoStr) (hu : colonByte ∉ u) :
    cutByte colonByte (u ++ colonByte :: p) = (u, p, true) := by
  induction u with
  | nil => simp [cutByte]
  | cons b rest ih =>
      have hb : b ≠ colonByte := by
        intro hEq; exact hu (by simp [hEq])
      have hrest : colonByte ∉ rest := fun hx => hu (by simp [hx])
      simp [cutByte, hb, ih hrest]

/-- Auth codec round trip: provided the username contains no `':'` byte and
both strings are well-formed byte strings, decoding an encoded pair recovers
it. -/
theorem decodeAuth_encodeAuth (u p : GoStr) (hu : ValidStr u) (hp : ValidStr p)
    (hc : colonByte ∉ u) :
    decodeAuth (encodeAuth u p) = .ok (u, p) := by
  by_cases hup : u = [] ∧ p = []
  · obtain ⟨h1, h2⟩ := hup
    subst h1; subst h2
    simp [encodeAuth, decodeAuth]
  · have hvalid : ValidStr (u ++ colonByte :: p) := by
      intro b hb
      rcases List.mem_append.1 hb with h | h
      · exact hu b h
      · rcases List.mem_cons.1 h with h | h
        · simp [h, colonByte]
        · exact hp b h
    have henc : encodeAuth u p = b64encode (u ++ colonByte :: p) := by
      simp [encodeAuth, hup]
    have hne : b64encode (u ++ colonByte :: p) ≠ [] :=
      b64encode_ne_nil _ (by simp)
    rw [henc]
    unfold decodeAuth
    rw [if_neg hne, b64decode_b64encode _ hvalid]
    simp [cutByte_append u p hc]

/-! ## Association-list maps

Go maps are modelled as association lists with replace-on-insert semantics;
claims only observe maps through lookup, so ordering is immaterial. -/

/-- Map lookup (`m[k]`, with the `ok` flag given by `isSome`). -/
def alookup {β : Type} (k : String) : List (String × β) → Option β
  | [] => none
  | (k', v) :: rest => if k' = k then some v else alookup k rest

/-- Map insert (`m[k] = v`), replacing an existing binding. -/
def ainsert {β : Type} (k : String) (v : β) : List (String × β) → List (String × β)
  | [] => [(k, v)]
  | (k', v') :: rest =>
      if k' = k then (k, v) :: rest else (k', v') :: ainsert k v rest

/-- Map erase (`delete(m, k)`). -/
def aerase {β : Type} (k : String) : List (String × β) → List (String × β)
  | [] => []
  | (k', v') :: rest =>
      if k' = k then rest else (k', v') :: aerase k rest

theorem alookup_ainsert {β : Type} (k : String) (v : β) (m : List (String × β)) :
    alookup k (ainsert k v m) = some v := by
  induction m with
  | nil => simp [ainsert, alookup]
  | cons hd rest ih =>
      obtain ⟨k', v'⟩ := hd
      by_cases hk : k' = k
      · simp [ainsert, hk, alookup]
      · simp [ainsert, hk, alookup, ih]

theorem alookup_ainsert_ne {β : Type} (k k' : String) (v : β)
    (m : List (String × β)) (h : k ≠ k') :
    alookup k' (ainsert k v m) = alookup k' m := by
  induction m with
  | nil => simp [ainsert, alookup, h]
  | cons hd rest ih =>
      obtain ⟨k₀, v₀⟩ := hd
      by_cases hk : k₀ = k
      · subst hk
        simp [ainsert, alookup, h]
      · by_cases hk' : k₀ = k'
        · subst hk'
          simp [ainsert, hk, alookup]
        · simp [ainsert, hk, alookup, hk', ih]

/-! ## `authConfig` and its credential conversion (unnamed/part_004 lines 65-108) -/

/-- `authConfig`: the on-disk auth entry.  `auth` is base64 `username:password`;
`identitytoken` / `registrytoken` carry the refresh / access tokens;
`username` / `password` are the legacy plain fields. -/
structure AuthConfig where
  auth : GoStr
  identityToken : GoStr
  registryToken : GoStr
  username : GoStr
  password : GoStr
deriving DecidableEq, Repr

/-- `newAuthConfig(cred)` (part_004 lines 82-89): encodes username/password
into `auth` and copies the tokens; the legacy plain fields are never emitted. -/
def newAuthConfig (cred : Credential) : AuthConfig where
  auth := encodeAuth cred.username cred.password
  identityToken := cred.refreshToken
  registryToken := cred.accessToken
  username := []
  password := []

/-- `authConfig.Credential()` (part_004 lines 91-108): start from the legacy
plain fields and the tokens; a non-empty `auth` overrides username/password
via `decodeAuth`; a decode failure yields `(EmptyCredential, err)` with `err`
wrapping `ErrInvalidConfigFormat`.  Go's `(auth.Credential, error)` return is
modelled as a pair with an optional error. -/
def AuthConfig.credential (ac : AuthConfig) : Credential × Option GoErr :=
  let cred : Credential :=
    { username := ac.username
      password := ac.password
      refreshToken := ac.identityToken
      accessToken := ac.registryToken }
  if ac.auth = [] then (cred, none)
  else
    match decodeAuth ac.auth with
    | .ok (u, p) => ({ cred with username := u, password := p }, none)
    | .error e =>
        (EmptyCredential, some (.invalidConfigFormat (reprStr e)))

/-! ## The file store (unnamed/part_004)

`FileStore` keeps the raw config document (`content`), the parsed `auths`
cache, and the `DisablePut` flag.  The document's top-level values are either
raw bytes (fields the implementation does not model, preserved verbatim) or
the marshalled `auths` map.  `saveFile` re-marshals `authsCache` into
`content["auths"]` and writes the document to `configPath`; we record each
completed write as an event so that "performs no I/O" claims are observable. -/

/-- A top-level value of the config document: either a raw JSON value the
implementation does not interpret, or the marshalled `auths` map. -/
inductive JsonValue where
  | raw (bytes : GoStr)
  | auths (m : List (String × AuthConfig))
deriving DecidableEq, Repr

/-- The field name constant `configFieldAuths`. -/
def configFieldAuths : String := "auths"

/-- `FileStore` (part_004 lines 36-51). -/
structure FileStore where
  DisablePut : Bool
  configPath : String
  content : List (String × JsonValue)
  authsCache : List (String × AuthConfig)
deriving DecidableEq, Repr

/-- A completed write of the whole config document to a path. -/
structure SaveEvent where
  path : String
  content : List (String × JsonValue)
deriving DecidableEq, Repr

/-- `FileStore.saveFile()` (part_004 lines 190-223), success path: re-marshal
the auths cache into `content["auths"]` and atomically write the document.
(The failure-injected I/O sequence is modelled separately below.) -/
def FileStore.saveFile (fs : FileStore) : FileStore × List SaveEvent :=
  let content' := ainsert configFieldAuths (.auths fs.authsCache) fs.content
  ({ fs with content := content' }, [⟨fs.configPath, content'⟩])

/-- `FileStore.Get` (part_004 lines 142-155): look up the auths cache; absent
yields the empty sentinel with no error; otherwise convert the entry. -/
def FileStore.get (fs : FileStore) (serverAddress : String) :
    Credential × Option GoErr :=
  match alookup serverAddress fs.authsCache with
  | none => (EmptyCredential, none)
  | some authCfg => authCfg.credential

/-- `FileStore.Put` (part_004 lines 159-174): fail with
`ErrPlaintextPutDisabled` when `DisablePut` is set (before touching any
state); otherwise store `newAuthConfig cred` and save. -/
def FileStore.put (fs : FileStore) (serverAddress : String) (cred : Credential) :
    Option GoErr × FileStore × List SaveEvent :=
  if fs.DisablePut then (some .plaintextPutDisabled, fs, [])
  else
    let fs' := { fs with
      authsCache := ainsert serverAddress (newAuthConfig cred) fs.authsCache }
    let (fs'', evs) := fs'.saveFile
    (none, fs'', evs)

/-- `FileStore.Delete` (part_004 lines 177-187): no-op without error when the
server has no entry; otherwise remove it and save. -/
def FileStore.delete (fs : FileStore) (serverAddress : String) :
    Option GoErr × FileStore × List SaveEvent :=
  match alookup serverAddress fs.authsCache with
  | none => (none, fs, [])
  | some _ =>
      let fs' := { fs with authsCache := aerase serverAddress fs.authsCache }
      let (fs'', evs) := fs'.saveFile
      (none, fs'', evs)

/-- An operation against the file store, for claims over operation sequences. -/
inductive FsOp where
  | put (serverAddress : String) (cred : Credential)
  | del (serverAddress : String)
deriving DecidableEq, Repr

/-- Run one operation, collecting the file-write events. -/
def FileStore.runOp (fs : FileStore) : FsOp → FileStore × List SaveEvent
  | .put s c => ((fs.put s c).2.1, (fs.put s c).2.2)
  | .del s => ((fs.delete s).2.1, (fs.delete s).2.2)

/-- Run a sequence of operations, collecting all file-write events. -/
def FileStore.runOps (fs : FileStore) : List FsOp → FileStore × List SaveEvent
  | [] => (fs, [])
  | op :: rest =>
      let (fs', evs) := fs.runOp op
      let (fs'', evs') := fs'.runOps rest
      (fs'', evs ++ evs')

theorem saveFile_authsCache (fs : FileStore) :
    (fs.saveFile.1).authsCache = fs.authsCache := rfl

/-- One operation preserves every top-level field other than `"auths"`, both in
the in-memory document and in every document written to disk. -/
theorem runOp_preserves_unknown (fs : FileStore) (op : FsOp) (k : String)
    (hk : k ≠ configFieldAuths) :
    alookup k (fs.runOp op).1.content = alookup k fs.content ∧
    ∀ ev ∈ (fs.runOp op).2, alookup k ev.content = alookup k fs.content := by
  have hins : ∀ m (cache : List (String × AuthConfig)),
      alookup k (ainsert configFieldAuths (JsonValue.auths cache) m)
        = alookup k m := by
    intro m cache
    exact alookup_ainsert_ne _ _ _ _ (fun h => hk h.symm)
  cases op with
  | put s c =>
      by_cases hd : fs.DisablePut
      · simp [FileStore.runOp, FileStore.put, hd]
      · simp [FileStore.runOp, FileStore.put, hd, FileStore.saveFile, hins]
  | del s =>
      cases hlook : alookup s fs.authsCache with
      | none => simp [FileStore.runOp, FileStore.delete, hlook]
      | some v =>
          simp [FileStore.runOp, FileStore.delete, hlook, FileStore.saveFile,
            hins]

/-- C2 (proved below as `fileStore_preserves_unknown_fields`): unknown
top-level fields survive any sequence of `Put`/`Delete` operations, in the
final document and in every saved document. -/
theorem runOps_preserves_unknown (ops : List FsOp) (fs : FileStore) (k : String)
    (hk : k ≠ configFieldAuths) :
    alookup k (fs.runOps ops).1.content = alookup k fs.content ∧
    ∀ ev ∈ (fs.runOps ops).2, alookup k ev.content = alookup k fs.content := by
  induction ops generalizing fs with
  | nil => simp [FileStore.runOps]
  | cons op rest ih =>
      obtain ⟨h1, h2⟩ := runOp_preserves_unknown fs op k hk
      obtain ⟨h1', h2'⟩ := ih (fs.runOp op).1
      have hfst : (fs.runOps (op :: rest)).1 = ((fs.runOp op).1.runOps rest).1 :=
        rfl
      have hsnd : (fs.runOps (op :: rest)).2
          = (fs.runOp op).2 ++ ((fs.runOp op).1.runOps rest).2 := rfl
      refine ⟨?_, ?_⟩
      · rw [hfst, h1', h1]
      · intro ev hev
        rw [hsnd] at hev
        rcases List.mem_append.1 hev with hev | hev
        · exact h2 ev hev
        · rw [h2' ev hev, h1]

/-- C1, counterexample: the round trip is not the identity for every credential
with non-empty username/password.  Putting username `"a:b"` (bytes
`[97,58,98]`) and password `"c"` (`[99]`) into a fresh store and getting it
back yields username `"a"` and password `"b:c"`, because `decodeAuth` splits
the base64-decoded `"a:b:c"` at its first colon.  -/
theorem C1_roundtrip_colon_counterexample :
    ((FileStore.mk false "config.json" [] []).put "registry.example.com"
        ⟨[97, 58, 98], [99], [], []⟩).2.1.get "registry.example.com"
      = (⟨[97], [98, 58, 99], [], []⟩, none) ∧
    (⟨[97], [98, 58, 99], [], []⟩ : Credential) ≠ ⟨[97, 58, 98], [99], [], []⟩ := by
  decide

/-- C1 (amended): for every server address and credential with a non-empty
username/password pair **whose username contains no `':'` byte**, `Put`
followed by `Get` on the same file store succeeds and returns a credential
deep-equal to the one stored (username and password travel through
`encodeAuth`/`decodeAuth`, the refresh token through `identitytoken`, the
access token through `registrytoken`). -/
theorem C1_put_get_roundtrip (fs : FileStore) (s : String) (cred : Credential)
    (hdis : fs.DisablePut = false)
    (hu : ValidStr cred.username) (hp : ValidStr cred.password)
    (hcolon : colonByte ∉ cred.username)
    (hne : cred.username ≠ [] ∨ cred.password ≠ []) :
    (fs.put s cred).1 = none ∧ (fs.put s cred).2.1.get s = (cred, none) := by
  obtain ⟨u, p, rt, at'⟩ := cred
  simp only at hu hp hcolon hne
  have hboth : ¬(u = [] ∧ p = []) := by
    rcases hne with h | h <;> exact fun hc => h (by simp [hc.1, hc.2])
  have hauth : encodeAuth u p ≠ [] := by
    unfold encodeAuth
    rw [if_neg hboth]
    exact b64encode_ne_nil _ (by simp)
  refine ⟨by simp [FileStore.put, hdis], ?_⟩
  have hcache : ((fs.put s ⟨u, p, rt, at'⟩).2.1).authsCache
      = ainsert s (newAuthConfig ⟨u, p, rt, at'⟩) fs.authsCache := by
    simp [FileStore.put, hdis, FileStore.saveFile]
  unfold FileStore.get
  rw [hcache, alookup_ainsert]
  unfold AuthConfig.credential newAuthConfig
  simp only
  rw [if_neg hauth, decodeAuth_encodeAuth u p hu hp hcolon]

/-- C1 witness: the amended round trip at username `"u"`, password `"p"`,
refresh token `"r"`, access token `"a"` on a fresh store. -/
theorem C1_put_get_roundtrip_witness :
    ((FileStore.mk false "config.json" [] []).put "registry.example.com"
        ⟨[117], [112], [114], [97]⟩).2.1.get "registry.example.com"
      = (⟨[117], [112], [114], [97]⟩, none) :=
  (C1_put_get_roundtrip (FileStore.mk false "config.json" [] [])
    "registry.example.com" ⟨[117], [112], [114], [97]⟩ rfl (by decide)
    (by decide) (by decide) (Or.inl (by decide))).2

/-- C2: a top-level config field other than `"auths"` (one the implementation
does not model) keeps its original raw value across every `Put`/`Delete`
sequence, both in the in-memory document and in every document saved to
disk. -/
theorem C2_unknown_fields_preserved (fs : FileStore) (ops : List FsOp)
    (k : String) (hk : k ≠ configFieldAuths) :
    alookup k (fs.runOps ops).1.content = alookup k fs.content ∧
    ∀ ev ∈ (fs.runOps ops).2, alookup k ev.content = alookup k fs.content :=
  runOps_preserves_unknown ops fs k hk

/-- C2 witness: a store whose document contains `"someField": "x"` still has
it, unchanged, after a `Put` followed by a `Delete`. -/
theorem C2_unknown_fields_preserved_witness :
    alookup "someField"
      ((FileStore.mk false "config.json" [("someField", .raw [120])] []).runOps
        [.put "s" ⟨[117], [112], [], []⟩, .del "s"]).1.content
      = some (.raw [120]) := by
  have h := (C2_unknown_fields_preserved
    (FileStore.mk false "config.json" [("someField", .raw [120])] [])
    [.put "s" ⟨[117], [112], [], []⟩, .del "s"] "someField" (by decide)).1
  rw [h]
  decide

/-- C5: when an auth entry has a non-empty `auth` blob, the conversion to a
credential takes username and password from decoding `auth`, ignoring the
legacy plain fields; when decoding `auth` fails, it returns the
empty-credential sentinel together with an error wrapping
`ErrInvalidConfigFormat`. -/
theorem C5_auth_overrides_legacy (ac : AuthConfig) (ha : ac.auth ≠ []) :
    (∀ u p, decodeAuth ac.auth = .ok (u, p) →
      ac.credential = ({ username := u, password := p,
                         refreshToken := ac.identityToken,
                         accessToken := ac.registryToken }, none)) ∧
    (∀ e, decodeAuth ac.auth = .error e →
      ac.credential.1 = EmptyCredential ∧
      ∃ err, ac.credential.2 = some err ∧ err.wrapsInvalidConfigFormat = true) := by
  constructor
  · intro u p hdec
    unfold AuthConfig.credential
    rw [if_neg ha, hdec]
  · intro e hdec
    unfold AuthConfig.credential
    rw [if_neg ha, hdec]
    exact ⟨rfl, _, rfl, rfl⟩

/-- C5 witness: an entry with `auth = base64("u:p")` (`"dTpw"`) and legacy
username `"x"`, password `"y"` converts to `(u, p)`-based credentials,
ignoring the legacy fields. -/
theorem C5_auth_overrides_legacy_witness :
    (AuthConfig.mk [100, 84, 112, 119] [] [] [120] [121]).credential
      = ({ username := [117], password := [112], refreshToken := [],
                              accessToken := [] }, none) :=
  (C5_auth_overrides_legacy (AuthConfig.mk [100, 84, 112, 119] [] [] [120] [121])
    (by decide)).1 [117] [112] rfl

/-- C6: with the write-disable flag set, `Put` fails immediately with
`ErrPlaintextPutDisabled`, leaves the store state unchanged, and performs no
file write. -/
theorem C6_disabled_put (fs : FileStore) (s : String) (cred : Credential)
    (h : fs.DisablePut = true) :
    fs.put s cred = (some .plaintextPutDisabled, fs, []) := by
  simp [FileStore.put, h]

/-- C6 witness: a write-disabled store rejects a `Put` without state change or
file write. -/
theorem C6_disabled_put_witness :
    (FileStore.mk true "config.json" [] []).put "s" ⟨[117], [112], [], []⟩
      = (some .plaintextPutDisabled, FileStore.mk true "config.json" [] [], []) :=
  C6_disabled_put (FileStore.mk true "config.json" [] []) "s"
    ⟨[117], [112], [], []⟩ rfl

/-- C7: `Delete` of a server address with no stored entry returns no error,
leaves the store unchanged, and performs no file write (in particular no file
is created when the config file never existed). -/
theorem C7_delete_absent_noop (fs : FileStore) (s : String)
    (h : alookup s fs.authsCache = none) :
    fs.delete s = (none, fs, []) := by
  simp [FileStore.delete, h]

/-- C7 witness: deleting from a fresh store (no config file ever written) is a
no-op with no error and no write. -/
theorem C7_delete_absent_noop_witness :
    (FileStore.mk false "config.json" [] []).delete "s"
      = (none, FileStore.mk false "config.json" [] [], []) :=
  C7_delete_absent_noop (FileStore.mk false "config.json" [] []) "s" rfl

/-! ## The config document caches and the dynamic store (src/store.go)

`internal/config.Config` caches the `credsStore` and `credHelpers` fields and
the `auths` map; the resolver (`dynamicStore`) consults them through
`GetCredentialHelper` / `CredentialsStore` / `IsAuthConfigured` (pure cache
lookups; the store.go call sites name them `GetCredentialHelper`,
`CredentialsStore` and `SetCredentialsStore`, matching the
`GetCredentialHelpers` / `GetCredentialsStore` / `PutCredentialsStore`
accessors of the provided `internal/config` sources). -/

/-- The resolver-relevant caches of `internal/config.Config`. -/
structure Config where
  credentialsStoreCache : String
  credentialHelpersCache : List (String × String)
  authsCache : List (String × AuthConfig)
deriving DecidableEq, Repr

/-- `Config.GetCredentialHelper(serverAddress)`: Go map indexing returns the
zero value `""` for a missing key. -/
def Config.getCredentialHelper (cfg : Config) (serverAddress : String) : String :=
  (alookup serverAddress cfg.credentialHelpersCache).getD ""

/-- `Config.CredentialsStore()`: the cached `credsStore` value. -/
def Config.credentialsStore (cfg : Config) : String :=
  cfg.credentialsStoreCache

/-- `Config.IsAuthConfigured()`: `credsStore` non-empty, or `credHelpers`
non-empty, or `auths` non-empty. -/
def Config.isAuthConfigured (cfg : Config) : Bool :=
  cfg.credentialsStoreCache ≠ "" ∨ cfg.credentialHelpersCache ≠ []
    ∨ cfg.authsCache ≠ []

/-- `StoreOptions` (src/store.go lines 47-55). -/
structure StoreOptions where
  AllowPlaintextPut : Bool
deriving DecidableEq, Repr

/-- `dynamicStore` (src/store.go lines 39-44): the config caches, the options,
the lazily detected default helper, and the `sync.Once` latch state
(`onceDone = true` once the latch has fired). -/
structure DynamicStore where
  config : Config
  options : StoreOptions
  detectedCredsStore : String
  onceDone : Bool
deriving DecidableEq, Repr

/-- `dynamicStore.getHelperSuffix` (src/store.go lines 129-142):
server-specific helper first, then the configured `credsStore`, then the
detected default store. -/
def DynamicStore.getHelperSuffix (ds : DynamicStore) (serverAddress : String) :
    String :=
  let helper := ds.config.getCredentialHelper serverAddress
  if helper ≠ "" then helper
  else
    let credsStore := ds.config.credentialsStore
    if credsStore ≠ "" then credsStore
    else ds.detectedCredsStore

/-- The store chosen by `dynamicStore.getStore`. -/
inductive ResolvedStore where
  | native (helperSuffix : String)
  | file (disablePut : Bool)
deriving DecidableEq, Repr

/-- `dynamicStore.getStore` (src/store.go lines 144-153): a native store for a
non-empty helper suffix, otherwise the file store with
`DisablePut = !AllowPlaintextPut`. -/
def DynamicStore.getStore (ds : DynamicStore) (serverAddress : String) :
    ResolvedStore :=
  let helper := ds.getHelperSuffix serverAddress
  if helper ≠ "" then .native helper
  else .file (!ds.options.AllowPlaintextPut)

/-- C3, counterexample: the three-case precedence of the claim is incomplete.
A `dynamicStore` over a config with no helpers and no `credsStore` but with a
detected default helper (`"pass"`, as `NewStore` sets on an unconfigured
config when a platform helper binary is found) resolves to that native
helper, not to the file store. -/
theorem C3_resolver_detected_counterexample :
    (DynamicStore.mk (Config.mk "" [] []) (StoreOptions.mk false) "pass"
        false).getStore "registry1.example.com"
      = .native "pass" ∧
    ∀ d, ResolvedStore.native "pass" ≠ .file d := by
  constructor
  · rfl
  · intro d h
    cases h

/-- C3 (amended): resolution is first-match-wins over four cases: a non-empty
`credHelpers[server]` wins; else a non-empty `credsStore`; else a non-empty
detected default helper; only when all three are empty (including when a
`credHelpers` entry exists but equals the empty string, which falls through)
is the file store used, with write-disable set to `!AllowPlaintextPut`. -/
theorem C3_resolver_precedence (ds : DynamicStore) (s : String) :
    (ds.config.getCredentialHelper s ≠ "" →
      ds.getStore s = .native (ds.config.getCredentialHelper s)) ∧
    (ds.config.getCredentialHelper s = "" → ds.config.credentialsStore ≠ "" →
      ds.getStore s = .native ds.config.credentialsStore) ∧
    (ds.config.getCredentialHelper s = "" → ds.config.credentialsStore = "" →
      ds.detectedCredsStore ≠ "" →
      ds.getStore s = .native ds.detectedCredsStore) ∧
    (ds.config.getCredentialHelper s = "" → ds.config.credentialsStore = "" →
      ds.detectedCredsStore = "" →
      ds.getStore s = .file (!ds.options.AllowPlaintextPut)) := by
  refine ⟨?_, ?_, ?_, ?_⟩
  · intro h1
    simp [DynamicStore.getStore, DynamicStore.getHelperSuffix, h1]
  · intro h1 h2
    simp [DynamicStore.getStore, DynamicStore.getHelperSuffix, h1, h2]
  · intro h1 h2 h3
    simp [DynamicStore.getStore, DynamicStore.getHelperSuffix, h1, h2, h3]
  · intro h1 h2 h3
    simp [DynamicStore.getStore, DynamicStore.getHelperSuffix, h1, h2, h3]

/-- C3 witness: with `credHelpers["registry1.example.com"] = "helper1"` and
`credsStore = "globalhelper"`, resolving `registry1.example.com` selects
`helper1` and another address selects `globalhelper`. -/
theorem C3_resolver_precedence_witness :
    (DynamicStore.mk
        (Config.mk "globalhelper" [("registry1.example.com", "helper1")] [])
        (StoreOptions.mk false) "" false).getStore "registry1.example.com"
      = .native "helper1" ∧
    (DynamicStore.mk
        (Config.mk "globalhelper" [("registry1.example.com", "helper1")] [])
        (StoreOptions.mk false) "" false).getStore "other.example.com"
      = .native "globalhelper" := by
  constructor
  · exact (C3_resolver_precedence
      (DynamicStore.mk
        (Config.mk "globalhelper" [("registry1.example.com", "helper1")] [])
        (StoreOptions.mk false) "" false) "registry1.example.com").1
      (by decide)
  · exact ((C3_resolver_precedence
      (DynamicStore.mk
        (Config.mk "globalhelper" [("registry1.example.com", "helper1")] [])
        (StoreOptions.mk false) "" false) "other.example.com").2.1
      (by decide) (by decide))

/-! ## `dynamicStore.Put` and the one-time persist of the detected helper
(src/store.go lines 101-118)

`Put` resolves a store, delegates, and — only after a successful delegate
`Put` — runs the `sync.Once` latch: on its first execution it persists the
detected helper name (when non-empty) into the config's `credsStore` via
`SetCredentialsStore`.  The delegate store's `Put` outcome and the save
outcome of `SetCredentialsStore` are external (helper process / file I/O) and
are supplied as oracles. -/

/-- One `Put` call against the dynamic store, with the externally determined
outcomes of the delegate store's `Put` and of `SetCredentialsStore`'s save. -/
structure PutCall where
  serverAddress : String
  cred : Credential
  storePutResult : Option GoErr
  setSaveResult : Option GoErr
deriving DecidableEq, Repr

/-- `Config.SetCredentialsStore(credsStore)`: update the cache, then save the
file (save outcome injected). -/
def Config.setCredentialsStore (cfg : Config) (credsStore : String)
    (saveResult : Option GoErr) : Config × Option GoErr :=
  ({ cfg with credentialsStoreCache := credsStore }, saveResult)

/-- `dynamicStore.Put` (src/store.go lines 101-118).  Returns the error, the
new store state, and whether `SetCredentialsStore` was invoked (the latch
body's persist step executed). -/
def DynamicStore.put (ds : DynamicStore) (c : PutCall) :
    Option GoErr × DynamicStore × Bool :=
  let _resolved := ds.getStore c.serverAddress
  match c.storePutResult with
  | some e => (some e, ds, false)
  | none =>
      if ds.onceDone then (none, ds, false)
      else
        if ds.detectedCredsStore ≠ "" then
          let (cfg', saveErr) :=
            ds.config.setCredentialsStore ds.detectedCredsStore c.setSaveResult
          let ds' := { ds with config := cfg', onceDone := true }
          match saveErr with
          | some _ => (some .setCredsStoreFailed, ds', true)
          | none => (none, ds', true)
        else (none, { ds with onceDone := true }, false)

/-- Run a sequence of `Put` calls, collecting per-call flags of whether the
persist step executed. -/
def DynamicStore.runPuts (ds : DynamicStore) :
    List PutCall → DynamicStore × List Bool
  | [] => (ds, [])
  | c :: rest =>
      let (_, ds', ev) := ds.put c
      let (ds'', evs) := ds'.runPuts rest
      (ds'', ev :: evs)

/-- The event pattern the claim describes: the persist step executes exactly
at the first `Put` whose delegate store `Put` succeeded. -/
def firstSuccessMask : List PutCall → List Bool
  | [] => []
  | c :: rest =>
      if c.storePutResult = none then true :: List.replicate rest.length false
      else false :: firstSuccessMask rest

theorem runPuts_onceDone (ds : DynamicStore) (calls : List PutCall)
    (h : ds.onceDone = true) :
    ds.runPuts calls = (ds, List.replicate calls.length false) := by
  induction calls with
  | nil => simp [DynamicStore.runPuts]
  | cons c rest ih =>
      cases hr : c.storePutResult with
      | some e => simp [DynamicStore.runPuts, DynamicStore.put, hr, ih,
          List.replicate_succ]
      | none => simp [DynamicStore.runPuts, DynamicStore.put, hr, h, ih,
          List.replicate_succ]

theorem count_replicate_false (n : Nat) :
    (List.replicate n false).count true = 0 := by
  induction n with
  | zero => simp
  | succ n ih => simp [List.replicate_succ, List.count_cons, ih]

theorem count_firstSuccessMask (calls : List PutCall) :
    (firstSuccessMask calls).count true ≤ 1 := by
  induction calls with
  | nil => simp [firstSuccessMask]
  | cons c rest ih =>
      by_cases h : c.storePutResult = none
      · simp [firstSuccessMask, h, List.count_cons, count_replicate_false]
      · simpa [firstSuccessMask, h, List.count_cons] using ih

/-- C9: starting from a fresh `dynamicStore` (latch not yet fired) with a
detected default helper, over any sequence of `Put` calls the persist of the
detected helper into `credsStore` executes exactly at the first `Put` whose
delegate store `Put` succeeded — in particular at most once. -/
theorem C9_persist_detected_once (ds : DynamicStore) (calls : List PutCall)
    (h0 : ds.onceDone = false) (hdet : ds.detectedCredsStore ≠ "") :
    (ds.runPuts calls).2 = firstSuccessMask calls ∧
    ((ds.runPuts calls).2).count true ≤ 1 := by
  suffices hmask : (ds.runPuts calls).2 = firstSuccessMask calls by
    exact ⟨hmask, hmask ▸ count_firstSuccessMask calls⟩
  induction calls generalizing ds with
  | nil => simp [DynamicStore.runPuts, firstSuccessMask]
  | cons c rest ih =>
      cases hr : c.storePutResult with
      | some e =>
          have hput : ds.put c = (some e, ds, false) := by
            simp [DynamicStore.put, hr]
          have : ds.runPuts (c :: rest)
              = ((ds.runPuts rest).1, false :: (ds.runPuts rest).2) := by
            simp [DynamicStore.runPuts, hput]
          rw [this]
          simp [firstSuccessMask, hr, ih ds h0 hdet]
      | none =>
          cases hsv : c.setSaveResult with
          | some e' =>
              have hput : ds.put c = (some .setCredsStoreFailed,
                  { ds with
                    config := { ds.config with
                      credentialsStoreCache := ds.detectedCredsStore },
                    onceDone := true }, true) := by
                simp [DynamicStore.put, hr, h0, hdet,
                  Config.setCredentialsStore, hsv]
              have hrest := runPuts_onceDone
                { ds with
                  config := { ds.config with
                    credentialsStoreCache := ds.detectedCredsStore },
                  onceDone := true } rest rfl
              simp [DynamicStore.runPuts, hput, hrest, firstSuccessMask, hr]
          | none =>
              have hput : ds.put c = (none,
                  { ds with
                    config := { ds.config with
                      credentialsStoreCache := ds.detectedCredsStore },
                    onceDone := true }, true) := by
                simp [DynamicStore.put, hr, h0, hdet,
                  Config.setCredentialsStore, hsv]
              have hrest := runPuts_onceDone
                { ds with
                  config := { ds.config with
                    credentialsStoreCache := ds.detectedCredsStore },
                  onceDone := true } rest rfl
              simp [DynamicStore.runPuts, hput, hrest, firstSuccessMask, hr]

/-- C9 witness: with a failed first `Put` and two successful ones, the persist
step runs exactly at the second call. -/
theorem C9_persist_detected_once_witness :
    ((DynamicStore.mk (Config.mk "" [] []) (StoreOptions.mk false) "pass"
        false).runPuts
      [PutCall.mk "s" EmptyCredential (some (.ioErr "helper failed")) none,
       PutCall.mk "s" EmptyCredential none none,
       PutCall.mk "s" EmptyCredential none none]).2
      = [false, true, false] := by
  have h := (C9_persist_detected_once
    (DynamicStore.mk (Config.mk "" [] []) (StoreOptions.mk false) "pass" false)
    [PutCall.mk "s" EmptyCredential (some (.ioErr "helper failed")) none,
     PutCall.mk "s" EmptyCredential none none,
     PutCall.mk "s" EmptyCredential none none] rfl (by decide)).1
  rw [h]
  decide

/-! ## The fallback chain (`storeWithFallbacks`, src/store.go lines 155-201)

A `Store` is any implementation of the Get/Put/Delete contract; we model it
as an implementation record over an arbitrary state type, packaged with its
current state. -/

/-- The `Store` interface over a state type: `Get` observes the state, `Put`
and `Delete` return the successor state along with the error. -/
structure StoreImpl (σ : Type) where
  get : σ → String → Credential × Option GoErr
  put : σ → String → Credential → σ × Option GoErr
  del : σ → String → σ × Option GoErr

/-- A store: an implementation together with its current state. -/
def Store := (σ : Type) × StoreImpl σ × σ

/-- Observe a store's `Get`. -/
def Store.getC (s : Store) (serverAddress : String) :
    Credential × Option GoErr :=
  s.2.1.get s.2.2 serverAddress

/-- A store's `Put`, returning the updated store and the error. -/
def Store.putC (s : Store) (serverAddress : String) (cred : Credential) :
    Store × Option GoErr :=
  let (st', e) := s.2.1.put s.2.2 serverAddress cred
  (⟨s.1, s.2.1, st'⟩, e)

/-- A store's `Delete`, returning the updated store and the error. -/
def Store.delC (s : Store) (serverAddress : String) : Store × Option GoErr :=
  let (st', e) := s.2.1.del s.2.2 serverAddress
  (⟨s.1, s.2.1, st'⟩, e)

/-- `storeWithFallbacks.Get` (src/store.go lines 178-189): walk the stores in
order; an error aborts with `(EmptyCredential, err)`; a non-sentinel
credential returns immediately; exhaustion returns the sentinel without
error. -/
def chainGet : List Store → String → Credential × Option GoErr
  | [], _ => (EmptyCredential, none)
  | s :: rest, serverAddress =>
      match s.getC serverAddress with
      | (_, some e) => (EmptyCredential, some e)
      | (cred, none) =>
          if cred = EmptyCredential then chainGet rest serverAddress
          else (cred, none)

/-- `storeWithFallbacks.Put` (src/store.go lines 191-195): delegate to
`stores[0]` only; the fallback stores are not consulted or changed. -/
def chainPut (primary : Store) (fallbacks : List Store)
    (serverAddress : String) (cred : Credential) :
    List Store × Option GoErr :=
  let (primary', e) := primary.putC serverAddress cred
  (primary' :: fallbacks, e)

/-- `storeWithFallbacks.Delete` (src/store.go lines 197-201): delegate to
`stores[0]` only. -/
def chainDel (primary : Store) (fallbacks : List Store)
    (serverAddress : String) : List Store × Option GoErr :=
  let (primary', e) := primary.delC serverAddress
  (primary' :: fallbacks, e)

theorem chainGet_all_sentinel (stores : List Store) (a : String)
    (h : ∀ s ∈ stores, s.getC a = (EmptyCredential, none)) :
    chainGet stores a = (EmptyCredential, none) := by
  induction stores with
  | nil => simp [chainGet]
  | cons s rest ih =>
      have hs := h s (by simp)
      simp only [chainGet, hs]
      exact ih (fun s' hs' => h s' (by simp [hs']))

theorem chainGet_first_hit (stores : List Store) (a : String) (i : Nat)
    (hi : i < stores.length)
    (hbefore : ∀ j, (hj : j < i) →
      (stores.get ⟨j, hj.trans hi⟩).getC a = (EmptyCredential, none)) :
    (∀ e, ((stores.get ⟨i, hi⟩).getC a).2 = some e →
      chainGet stores a = (EmptyCredential, some e)) ∧
    (((stores.get ⟨i, hi⟩).getC a).2 = none →
      ((stores.get ⟨i, hi⟩).getC a).1 ≠ EmptyCredential →
      chainGet stores a = (((stores.get ⟨i, hi⟩).getC a).1, none)) := by
  induction i generalizing stores with
  | zero =>
      match stores, hi with
      | s :: rest, _ =>
          constructor
          · intro e he
            simp only [List.get] at he ⊢
            cases hg : s.getC a with
            | mk cred err =>
                rw [hg] at he
                simp at he
                simp [chainGet, hg, he]
          · intro he hne
            simp only [List.get] at he hne ⊢
            cases hg : s.getC a with
            | mk cred err =>
                rw [hg] at he hne
                simp at he hne
                simp [chainGet, hg, he, hne]
  | succ i ih =>
      match stores, hi with
      | s :: rest, hi =>
          have h0 : s.getC a = (EmptyCredential, none) := by
            have := hbefore 0 (Nat.succ_pos i)
            simpa using this
          have hrest : i < rest.length := Nat.lt_of_succ_lt_succ hi
          have hbefore' : ∀ j, (hj : j < i) →
              (rest.get ⟨j, hj.trans hrest⟩).getC a
                = (EmptyCredential, none) := by
            intro j hj
            have := hbefore (j + 1) (Nat.succ_lt_succ hj)
            simpa using this
          have hstep : chainGet (s :: rest) a = chainGet rest a := by
            simp [chainGet, h0]
          have hget : (s :: rest).get ⟨i + 1, hi⟩ = rest.get ⟨i, hrest⟩ := by
            simp
          obtain ⟨ha, hb⟩ := ih rest hrest hbefore'
          constructor
          · intro e he
            rw [hget] at he
            rw [hstep]
            exact ha e he
          · intro he hne
            rw [hget] at he hne
            rw [hstep, hget]
            exact hb he hne

/-- C4: for a non-empty chain, `Get` walks the stores in order — it fails
with the first error, returns the first non-sentinel credential, and returns
the sentinel without error when every store returns the sentinel — while
`Put` and `Delete` go to the primary store only, leaving every fallback store
untouched. -/
theorem C4_fallback_chain (primary : Store) (fallbacks : List Store)
    (a : String) (cred : Credential) :
    ((∀ s ∈ primary :: fallbacks, s.getC a = (EmptyCredential, none)) →
      chainGet (primary :: fallbacks) a = (EmptyCredential, none)) ∧
    (∀ i, (hi : i < (primary :: fallbacks).length) →
      (∀ j, (hj : j < i) →
        ((primary :: fallbacks).get ⟨j, hj.trans hi⟩).getC a
          = (EmptyCredential, none)) →
      (∀ e, (((primary :: fallbacks).get ⟨i, hi⟩).getC a).2 = some e →
        chainGet (primary :: fallbacks) a = (EmptyCredential, some e)) ∧
      ((((primary :: fallbacks).get ⟨i, hi⟩).getC a).2 = none →
        (((primary :: fallbacks).get ⟨i, hi⟩).getC a).1 ≠ EmptyCredential →
        chainGet (primary :: fallbacks) a
          = ((((primary :: fallbacks).get ⟨i, hi⟩).getC a).1, none))) ∧
    chainPut primary fallbacks a cred
      = ((primary.putC a cred).1 :: fallbacks, (primary.putC a cred).2) ∧
    chainDel primary fallbacks a
      = ((primary.delC a).1 :: fallbacks, (primary.delC a).2) := by
  refine ⟨chainGet_all_sentinel _ a, ?_, ?_, ?_⟩
  · intro i hi hbefore
    exact chainGet_first_hit (primary :: fallbacks) a i hi hbefore
  · cases hp : primary.putC a cred with
    | mk p' e => simp [chainPut, hp]
  · cases hp : primary.delC a with
    | mk p' e => simp [chainDel, hp]

/-- The in-memory store used as a test double (the repository's memory
store): a map from server address to credential; `Get` of a missing key
yields the sentinel without error. -/
def memStoreImpl : StoreImpl (List (String × Credential)) where
  get := fun m serverAddress =>
    ((alookup serverAddress m).getD EmptyCredential, none)
  put := fun m serverAddress cred => (ainsert serverAddress cred m, none)
  del := fun m serverAddress => (aerase serverAddress m, none)

/-- C4 witness: with stores `[A(empty), B(has "k")]`, `Get "k"` returns B's
credential, and `Put "k2"` writes only to A, leaving B untouched. -/
theorem C4_fallback_chain_witness :
    chainGet [⟨_, memStoreImpl, []⟩,
        ⟨_, memStoreImpl, [("k", Credential.mk [117] [112] [] [])]⟩] "k"
      = (Credential.mk [117] [112] [] [], none) ∧
    (chainPut ⟨_, memStoreImpl, []⟩
        [⟨_, memStoreImpl, [("k", Credential.mk [117] [112] [] [])]⟩]
        "k2" (Credential.mk [118] [113] [] [])).1
      = [⟨_, memStoreImpl, [("k2", Credential.mk [118] [113] [] [])]⟩,
         ⟨_, memStoreImpl, [("k", Credential.mk [117] [112] [] [])]⟩] := by
  have h := C4_fallback_chain (⟨_, memStoreImpl, []⟩ : Store)
    [⟨_, memStoreImpl, [("k", Credential.mk [117] [112] [] [])]⟩]
    "k" (Credential.mk [118] [113] [] [])
  constructor
  · have h1 := (h.2.1 1 (by simp) (by
      intro j hj
      have hj0 : j = 0 := by omega
      subst hj0
      rfl)).2 rfl (by
      show Credential.mk [117] [112] [] [] ≠ EmptyCredential
      decide)
    simpa using h1
  · have h2 := (C4_fallback_chain (⟨_, memStoreImpl, []⟩ : Store)
      [⟨_, memStoreImpl, [("k", Credential.mk [117] [112] [] [])]⟩]
      "k2" (Credential.mk [118] [113] [] [])).2.2.1
    rw [h2]
    rfl

/-! ## The atomic save's I/O discipline (part_004 `saveFile`, lines 190-223)

`saveFile` creates the target directory, writes the marshalled document to a
temporary ingest file via `ioutil.Ingest(configDir, ...)`, and renames it over
the config path, removing the ingest file when anything after its creation
fails.  Failures of the individual OS calls are injected through an oracle. -/

/-- A file-system action performed by `saveFile`. -/
inductive IoEvent where
  | mkdirAll (dir : String)
  | createTemp (dir : String) (path : String)
  | remove (path : String)
  | rename (src : String) (dst : String)
deriving DecidableEq, Repr

/-- `filepath.Dir`, simplified to the cases exercised here: everything before
the last `/`, or `"."` when the path has no `/`.  (Go additionally runs
`Clean`; no claim depends on that difference.) -/
def dirOf (p : String) : String :=
  let parts := p.splitOn "/"
  if parts.length ≤ 1 then "." else String.intercalate "/" parts.dropLast

/-- Failure injection for one `saveFile` run: the random temp-file name and
whether each OS call fails. -/
structure SaveOracle where
  tempName : String
  mkdirFails : Bool
  createFails : Bool
  copyFails : Bool
  renameFails : Bool
deriving DecidableEq, Repr

/-- Modelled from the spec: the two-argument `ioutil.Ingest(dir, content)`
called by `saveFile` (part_004 line 207) is absent from the provided sources
(only call sites and the earlier one-argument variant are present).  Per the
spec's save algorithm, it writes the content to a freshly created temporary
file **in the given directory** and, if writing fails after the file was
created, removes the temporary file before returning the error. -/
def ingest (dir : String) (o : SaveOracle) :
    Except GoErr String × List IoEvent :=
  if o.createFails then (.error (.ioErr "failed to create ingest file"), [])
  else
    let path := dir ++ "/" ++ o.tempName
    if o.copyFails then
      (.error (.ioErr "failed to ingest"),
       [.createTemp dir path, .remove path])
    else (.ok path, [.createTemp dir path])

/-- `FileStore.saveFile` (part_004 lines 190-223) as its sequence of
file-system actions: make the config directory, ingest into a temp file in
that directory, rename the temp file over the config path; on a rename
failure the deferred cleanup removes the ingest file. -/
def FileStore.saveFileSteps (fs : FileStore) (o : SaveOracle) :
    Option GoErr × List IoEvent :=
  let configDir := dirOf fs.configPath
  if o.mkdirFails then (some (.ioErr "failed to make directory"), [])
  else
    match ingest configDir o with
    | (.error e, evs) => (some e, .mkdirAll configDir :: evs)
    | (.ok path, evs) =>
        if o.renameFails then
          (some (.ioErr "failed to save config file"),
           .mkdirAll configDir :: evs ++ [.remove path])
        else (none, .mkdirAll configDir :: evs ++ [.rename path fs.configPath])

/-- The temp files created by a run and never removed or renamed away. -/
def tempLeftover (evs : List IoEvent) : List String :=
  let created := evs.filterMap fun e =>
    match e with
    | .createTemp _ p => some p
    | _ => none
  let gone := evs.filterMap fun e =>
    match e with
    | .remove p => some p
    | .rename src _ => some src
    | _ => none
  created.filter fun p => ¬ p ∈ gone

/-- C8: every temporary file of a save is created in the directory of the
config path (same-filesystem rename), and no run — successful or failed at
any injected point — leaves a temporary file behind: a temp file is always
removed on failure or renamed over the target on success. -/
theorem C8_save_temp_discipline (fs : FileStore) (o : SaveOracle) :
    (∀ d p, IoEvent.createTemp d p ∈ (fs.saveFileSteps o).2 →
      d = dirOf fs.configPath) ∧
    tempLeftover (fs.saveFileSteps o).2 = [] := by
  obtain ⟨tempName, mkdirFails, createFails, copyFails, renameFails⟩ := o
  cases mkdirFails <;> cases createFails <;> cases copyFails <;>
    cases renameFails <;>
    simp [FileStore.saveFileSteps, ingest, tempLeftover, List.filter]

/-- C8 witness: a run whose rename fails still leaves no temp file behind (the
created temp file is removed by the deferred cleanup). -/
theorem C8_save_temp_discipline_witness :
    tempLeftover ((FileStore.mk false "home/config.json" [] []).saveFileSteps
      (SaveOracle.mk "tmp123" false false false true)).2 = [] :=
  (C8_save_temp_discipline (FileStore.mk false "home/config.json" [] [])
    (SaveOracle.mk "tmp123" false false false true)).2

/-! ## The native (credential-helper-backed) store (src/native_store.go)

The helper process itself is an external collaborator; per the spec's helper
protocol it is modelled as an ideal keychain mapping server URLs to the
`{ServerURL, Username, Secret}` records the store sends it. -/

/-- The docker credential-helper payload `credentials.Credentials`. -/
structure DockerCred where
  serverURL : String
  username : GoStr
  secret : GoStr
deriving DecidableEq, Repr

/-- The sentinel username `"<token>"` signalling a bearer/refresh token. -/
def emptyUsername : GoStr := [60, 116, 111, 107, 101, 110, 62]

/-- The payload `NativeStore.Put` sends the helper (src/native_store.go lines
67-78): username and password, unless the credential carries a refresh token,
in which case the sentinel username and the refresh token as secret. -/
def putDockerCred (serverAddress : String) (cred : Credential) : DockerCred :=
  let base : DockerCred := ⟨serverAddress, cred.username, cred.password⟩
  if cred.refreshToken ≠ [] then
    { base with username := emptyUsername, secret := cred.refreshToken }
  else base

/-- The credential `NativeStore.Get` builds from a helper response
(src/native_store.go lines 46-64, found case): the sentinel username means
the secret is a refresh token; otherwise username/password. -/
def credFromDocker (d : DockerCred) : Credential :=
  if d.username = emptyUsername then
    { EmptyCredential with refreshToken := d.secret }
  else
    { EmptyCredential with username := d.username, password := d.secret }

/-- The external helper keychain, modelled as a map per the helper protocol. -/
def HelperState := List (String × DockerCred)

/-- `NativeStore.Put`: send a `store` action with the translated payload. -/
def nsPut (st : HelperState) (serverAddress : String) (cred : Credential) :
    HelperState :=
  ainsert serverAddress (putDockerCred serverAddress cred) st

/-- `NativeStore.Get`: a `get` action; "credentials not found" is normalized
to the sentinel with no error. -/
def nsGet (st : HelperState) (serverAddress : String) :
    Credential × Option GoErr :=
  match alookup serverAddress st with
  | none => (EmptyCredential, none)
  | some d => (credFromDocker d, none)

/-- C10: for a credential with a non-empty refresh token, `Put` sends the
helper the sentinel username `"<token>"` with the refresh token as secret
(discarding username, password and access token); `Get` maps any response
bearing the sentinel username to a credential with only the refresh token
set; hence `Put` then `Get` through the native store preserves exactly the
refresh token. -/
theorem C10_native_refresh_token (st : HelperState) (serverAddress : String)
    (cred : Credential) (h : cred.refreshToken ≠ []) :
    putDockerCred serverAddress cred
      = ⟨serverAddress, emptyUsername, cred.refreshToken⟩ ∧
    (∀ d : DockerCred, d.username = emptyUsername →
      credFromDocker d = { EmptyCredential with refreshToken := d.secret }) ∧
    nsGet (nsPut st serverAddress cred) serverAddress
      = ({ EmptyCredential with refreshToken := cred.refreshToken }, none) := by
  have hput : putDockerCred serverAddress cred
      = ⟨serverAddress, emptyUsername, cred.refreshToken⟩ := by
    simp [putDockerCred, h]
  refine ⟨hput, ?_, ?_⟩
  · intro d hd
    simp [credFromDocker, hd]
  · unfold nsGet nsPut
    rw [alookup_ainsert, hput]
    simp [credFromDocker]

/-- C10 witness: a credential with username `"u"`, password `"p"`, refresh
token `"r"` and access token `"a"` travels through the native store keeping
only the refresh token. -/
theorem C10_native_refresh_token_witness :
    nsGet (nsPut [] "registry.example.com"
        (Credential.mk [117] [112] [114] [97])) "registry.example.com"
      = (Credential.mk [] [] [114] [], none) :=
  (C10_native_refresh_token [] "registry.example.com"
    (Credential.mk [117] [112] [114] [97]) (by decide)).2.2

end OrasCreds
